import Mathlib

/-!
Shallow embedding of `jitter.go` (package `jitter`): a ticker that emits
timestamped events on a capacity-1 channel every `interval + uniform(0, jitter)`
nanoseconds, until its stop channel is closed.

Modelling conventions:
* `time.Duration` is Go's `int64` nanosecond count; we use `Int` and wrap
  additions explicitly at 64 bits where the source adds two durations.
* `math/rand.Rand` is deterministic given its seed.  We model the generator
  abstractly: `Rand.next` is the stream of raw 63-bit outputs produced by the
  seeded source (both branches of Go's `Int63n` return `raw % n` for an
  accepted raw draw in `[0, 2^63)`), and `idx` counts the calls made so far.
  `NewTicker` receives the generator family `gen : Int → Nat → Nat` (seed ↦
  output stream) and the construction-time clock reading `nowNano`, standing
  for `rand.NewSource(time.Now().UnixNano())`.
* The goroutine state (channel contents, stop flag, clock, PRNG state) lives in
  `TickerState`; `delivered`, `received` and `cycles` are history variables
  recording the timestamps sent on the channel, the timestamps read by the
  consumer, and the completed loop iterations.
* Go's `select` with a `default` case fires the `default` only when no other
  case is ready, and chooses uniformly at random among the ready cases
  otherwise.  Receiving on a closed channel is always ready; sending on a
  buffered channel is ready iff the buffer has room.  The random choice is
  modelled by the nondeterministic parameter `pick` of `Ticker.tickCycle`,
  consulted only when both the stop case and the send case are ready.
* Go panics are modelled as `Except.error` values of type `GoError`.
-/

namespace Jitter

/-- Reduce an unbounded integer to the `int64` two's-complement range, as Go's
wrapping `int64` addition does. -/
def wrap64 (x : Int) : Int := (x + 2 ^ 63) % 2 ^ 64 - 2 ^ 63

/-- The panics the source can raise, as an error type. -/
inductive GoError where
  /-- Panic of `NewTicker` when `interval <= 0`; carries `int(interval)`. -/
  | nonPositiveInterval (v : Int)
  /-- Panic of `NewTicker` when `jitter <= 0`; carries `int(jitter)`. -/
  | nonPositiveJitter (v : Int)
  /-- Panic of `math/rand.Int63n` on a non-positive argument. -/
  | int63nNonPositive
  /-- Runtime panic of `close` on an already-closed channel, raised by a second
  `Ticker.Stop`. -/
  | closeOfClosedChannel
deriving DecidableEq, Repr

/-- State of a `math/rand.Rand`: `next` is the stream of raw accepted 63-bit
draws of the seeded generator, `idx` the number of draws consumed. -/
structure Rand where
  next : Nat → Nat
  idx : Nat

/-- Go `rand.Int63n(n)`: panics when `n <= 0`, otherwise consumes one raw draw
and returns it reduced modulo `n` (a value in `[0, n)`). -/
def Rand.int63n (r : Rand) (n : Int) : Except GoError (Int × Rand) :=
  if n ≤ 0 then .error .int63nNonPositive
  else .ok ((r.next r.idx % 2 ^ 63 : Nat) % n, { r with idx := r.idx + 1 })

/-- The immutable fields of the `Ticker` struct.  The channels `C`/`stop` and
the `random` state are mutable shared state and live in `TickerState`. -/
structure Ticker where
  interval : Int
  jitter : Int

/-- Mutable state shared by the goroutine, the consumer and `Stop`, plus
history variables for stating the specification. -/
structure TickerState where
  /-- Contents of the buffered channel `c := make(chan time.Time, 1)`.
  Modelled as a list so that its capacity bound is a provable invariant. -/
  chanC : List Int
  /-- Whether `close(t.stop)` has happened. -/
  stopClosed : Bool
  /-- Whether the `tick` loop has executed `break loop`. -/
  loopDone : Bool
  /-- State of the per-instance `rand.Rand`. -/
  random : Rand
  /-- Current clock reading (`time.Now()`), in nanoseconds. -/
  now : Int
  /-- History: timestamps successfully sent on the channel, oldest first. -/
  delivered : List Int
  /-- History: timestamps received by the consumer from `Ticker.C`. -/
  received : List Int
  /-- History: completed (non-breaking) iterations of the `tick` loop. -/
  cycles : Nat

/-- Freshly allocated shared state: empty capacity-1 channel, open stop
channel, generator seeded with the construction-time clock reading. -/
def initState (gen : Int → Nat → Nat) (nowNano : Int) : TickerState :=
  { chanC := []
    stopClosed := false
    loopDone := false
    random := { next := gen nowNano, idx := 0 }
    now := nowNano
    delivered := []
    received := []
    cycles := 0 }

/-- Go `NewTicker(interval, jitter)`: validates `interval` then `jitter`,
then seeds a private generator from the clock, allocates the capacity-1 event
channel and the stop channel, and starts the `tick` goroutine.  `gen` is the
PRNG family, `nowNano` the value of `time.Now().UnixNano()`. -/
def NewTicker (gen : Int → Nat → Nat) (nowNano : Int) (interval jitter : Int) :
    Except GoError (Ticker × TickerState) :=
  if interval ≤ 0 then .error (.nonPositiveInterval interval)
  else if jitter ≤ 0 then .error (.nonPositiveJitter jitter)
  else .ok ({ interval := interval, jitter := jitter }, initState gen nowNano)

/-- Go `Ticker.sleep`: draws `delay := Int63n(int64(t.jitter))` and sleeps for
`t.interval + delay` (an `int64` addition, hence wrapped).  Returns the
duration passed to `time.Sleep` together with the advanced generator. -/
def Ticker.sleep (t : Ticker) (r : Rand) : Except GoError (Int × Rand) :=
  match r.int63n t.jitter with
  | .error e => .error e
  | .ok (delay, r') => .ok (wrap64 (t.interval + delay), r')

/-- Successful `select` send branch: `c <- time.Now()` plus history updates. -/
def sendNow (s : TickerState) : TickerState :=
  { s with
    chanC := s.chanC ++ [s.now]
    delivered := s.delivered ++ [s.now]
    cycles := s.cycles + 1 }

/-- State after `t.sleep()` returns: the generator advanced and the clock
moved forward by the time slept.  `time.Sleep` returns immediately on a
non-positive duration, so the clock advances by `max 0 d`. -/
def afterSleep (s : TickerState) (d : Int) (r' : Rand) : TickerState :=
  { s with random := r', now := s.now + max 0 d }

/-- Effect of `break loop`. -/
def breakLoop (s : TickerState) : TickerState :=
  { s with loopDone := true }

/-- Effect of the `default` branch: the event is silently dropped and the
cycle completes. -/
def dropTick (s : TickerState) : TickerState :=
  { s with cycles := s.cycles + 1 }

/-- One iteration of the `for` loop in Go `Ticker.tick`: sleep, then run the
`select`.  In the `select`, the receive on the `stop` channel is ready iff the
channel is closed (nothing is ever sent on it) and the send on `c` is ready
iff the buffer is empty; when both are ready Go picks one uniformly at random,
which is modelled by `pick` (`true` = stop branch, `false` = send branch).
The `default` branch fires only when neither is ready. -/
def Ticker.tickCycle (t : Ticker) (s : TickerState) (pick : Bool) :
    Except GoError TickerState :=
  match t.sleep s.random with
  | .error e => .error e
  | .ok (d, r') =>
    if (afterSleep s d r').stopClosed then
      if (afterSleep s d r').chanC.isEmpty then
        if pick then .ok (breakLoop (afterSleep s d r'))
        else .ok (sendNow (afterSleep s d r'))
      else .ok (breakLoop (afterSleep s d r'))
    else
      if (afterSleep s d r').chanC.isEmpty then .ok (sendNow (afterSleep s d r'))
      else .ok (dropTick (afterSleep s d r'))

/-- Go `Ticker.Stop`: `close(t.stop)`.  Closing an already-closed channel is a
runtime panic. -/
def Ticker.Stop (s : TickerState) : Except GoError TickerState :=
  if s.stopClosed then .error .closeOfClosedChannel
  else .ok { s with stopClosed := true }

/-- Consumer receive `<-ticker.C`: takes the buffered event if there is one
(`none` means the receive would block). -/
def recvC (s : TickerState) : Option (Int × TickerState) :=
  match s.chanC with
  | [] => none
  | x :: rest => some (x, { s with chanC := rest, received := s.received ++ [x] })

/-- Interleaved small-step semantics of a running ticker: the goroutine runs
loop iterations while the loop has not broken, the consumer may receive, and
the caller may invoke `Stop` (successfully) at any point. -/
inductive Step (t : Ticker) : TickerState → TickerState → Prop where
  | tick (pick : Bool) (s s' : TickerState) :
      s.loopDone = false → t.tickCycle s pick = .ok s' → Step t s s'
  | recv (s s' : TickerState) (x : Int) :
      recvC s = some (x, s') → Step t s s'
  | stop (s s' : TickerState) :
      Ticker.Stop s = .ok s' → Step t s s'

/-- Reachability of one ticker state from another under the step semantics. -/
abbrev Reachable (t : Ticker) : TickerState → TickerState → Prop :=
  Relation.ReflTransGen (Step t)

/-- Run `n` consecutive loop iterations with the send branch preferred
(`pick = false`), staying put if the sleep could fail (it cannot once the
constructor has validated `jitter`). -/
def runTicks (t : Ticker) : TickerState → Nat → TickerState
  | s, 0 => s
  | s, n + 1 =>
    match t.tickCycle s false with
    | .ok s' => runTicks t s' n
    | .error _ => s

/-- The `n`-th jitter delay a ticker draws, starting from generator state `r`
(`none` if some draw panics). -/
def nthDelay (t : Ticker) (r : Rand) : Nat → Option Int
  | 0 =>
    match r.int63n t.jitter with
    | .ok (delay, _) => some delay
    | .error _ => none
  | n + 1 =>
    match r.int63n t.jitter with
    | .ok (_, r') => nthDelay t r' n
    | .error _ => none

/-- The canonical state after one `sleep` from `s` (used once the constructor
has ensured the jitter draw cannot panic). -/
def slept (t : Ticker) (s : TickerState) : TickerState :=
  afterSleep s (wrap64 (t.interval + (s.random.next s.random.idx % 2 ^ 63 : Nat) % t.jitter))
    { s.random with idx := s.random.idx + 1 }

/-- Safety invariant of a running ticker: the channel holds at most one
undelivered event; the events the consumer has received, followed by the
events still buffered, are exactly the delivered events in order; delivered
timestamps are pairwise non-decreasing and bounded by the current clock. -/
def Inv (s : TickerState) : Prop :=
  s.chanC.length ≤ 1 ∧ s.received ++ s.chanC = s.delivered ∧
  s.delivered.Pairwise (· ≤ ·) ∧ ∀ y ∈ s.delivered, y ≤ s.now

/-- Strict version of the ordering part of the invariant, available when the
`interval + delay` addition cannot wrap: delivered timestamps are pairwise
strictly increasing. -/
def InvStrict (s : TickerState) : Prop :=
  s.delivered.Pairwise (· < ·) ∧ ∀ y ∈ s.delivered, y ≤ s.now

/-- Extract the state of a successful step, with a fallback. -/
def okOr (e : Except GoError TickerState) (s : TickerState) : TickerState :=
  match e with
  | .ok s' => s'
  | .error _ => s

/-- Concrete PRNG family used in witnesses and counterexamples. -/
def genW : Int → Nat → Nat := fun seedv k => seedv.natAbs + 13 * k + 7

/-- Concrete ticker with `interval = 100` and `jitter = 50` nanoseconds. -/
def tA : Ticker := { interval := 100, jitter := 50 }

/-- Concrete initial state of `tA` when built at clock reading `0`. -/
def sA0 : TickerState := initState genW 0

/-- Concrete running state whose stop flag is set while one event is still
buffered. -/
def sFull : TickerState :=
  { chanC := [5]
    stopClosed := true
    loopDone := false
    random := { next := genW 0, idx := 1 }
    now := 5
    delivered := [5]
    received := []
    cycles := 1 }

/-! Basic lemmas about the embedded operations. -/

theorem Rand.int63n_of_pos (r : Rand) {n : Int} (hn : 0 < n) :
    r.int63n n = .ok ((r.next r.idx % 2 ^ 63 : Nat) % n, { r with idx := r.idx + 1 }) := by
  unfold Rand.int63n
  rw [if_neg (by omega)]

theorem Rand.int63n_bounds {r r' : Rand} {n d : Int}
    (h : r.int63n n = .ok (d, r')) : 0 < n ∧ 0 ≤ d ∧ d < n := by
  unfold Rand.int63n at h
  split at h
  · cases h
  next hn =>
    refine ⟨by omega, ?_⟩
    injection h with h1
    obtain ⟨h2, -⟩ := Prod.mk.injEq .. ▸ h1
    subst h2
    exact ⟨Int.emod_nonneg _ (by omega), Int.emod_lt_of_pos _ (by omega)⟩

theorem wrap64_eq_self {x : Int} (h1 : -(2 ^ 63) ≤ x) (h2 : x < 2 ^ 63) :
    wrap64 x = x := by
  unfold wrap64
  omega

theorem Ticker.sleep_of_pos (t : Ticker) (r : Rand) (hj : 0 < t.jitter) :
    t.sleep r = .ok (wrap64 (t.interval + (r.next r.idx % 2 ^ 63 : Nat) % t.jitter),
      { r with idx := r.idx + 1 }) := by
  unfold Ticker.sleep
  rw [r.int63n_of_pos hj]

theorem Ticker.sleep_ok_inv {t : Ticker} {r r' : Rand} {d : Int}
    (h : t.sleep r = .ok (d, r')) :
    ∃ delay, r.int63n t.jitter = .ok (delay, r') ∧ 0 ≤ delay ∧ delay < t.jitter ∧
      d = wrap64 (t.interval + delay) := by
  unfold Ticker.sleep at h
  split at h
  · cases h
  next delay r'' heq =>
    injection h with h1
    obtain ⟨h2, h3⟩ := Prod.mk.injEq .. ▸ h1
    subst h2 h3
    obtain ⟨-, h4, h5⟩ := Rand.int63n_bounds heq
    exact ⟨delay, heq, h4, h5, rfl⟩

@[simp] theorem afterSleep_chanC (s : TickerState) (d : Int) (r' : Rand) :
    (afterSleep s d r').chanC = s.chanC := rfl

@[simp] theorem afterSleep_stopClosed (s : TickerState) (d : Int) (r' : Rand) :
    (afterSleep s d r').stopClosed = s.stopClosed := rfl

@[simp] theorem afterSleep_loopDone (s : TickerState) (d : Int) (r' : Rand) :
    (afterSleep s d r').loopDone = s.loopDone := rfl

@[simp] theorem afterSleep_now (s : TickerState) (d : Int) (r' : Rand) :
    (afterSleep s d r').now = s.now + max 0 d := rfl

@[simp] theorem afterSleep_delivered (s : TickerState) (d : Int) (r' : Rand) :
    (afterSleep s d r').delivered = s.delivered := rfl

@[simp] theorem afterSleep_received (s : TickerState) (d : Int) (r' : Rand) :
    (afterSleep s d r').received = s.received := rfl

@[simp] theorem afterSleep_cycles (s : TickerState) (d : Int) (r' : Rand) :
    (afterSleep s d r').cycles = s.cycles := rfl

@[simp] theorem breakLoop_chanC (s : TickerState) : (breakLoop s).chanC = s.chanC := rfl

@[simp] theorem breakLoop_stopClosed (s : TickerState) :
    (breakLoop s).stopClosed = s.stopClosed := rfl

@[simp] theorem breakLoop_loopDone (s : TickerState) : (breakLoop s).loopDone = true := rfl

@[simp] theorem breakLoop_now (s : TickerState) : (breakLoop s).now = s.now := rfl

@[simp] theorem breakLoop_delivered (s : TickerState) :
    (breakLoop s).delivered = s.delivered := rfl

@[simp] theorem breakLoop_received (s : TickerState) :
    (breakLoop s).received = s.received := rfl

@[simp] theorem breakLoop_cycles (s : TickerState) : (breakLoop s).cycles = s.cycles := rfl

@[simp] theorem sendNow_chanC (s : TickerState) :
    (sendNow s).chanC = s.chanC ++ [s.now] := rfl

@[simp] theorem sendNow_stopClosed (s : TickerState) :
    (sendNow s).stopClosed = s.stopClosed := rfl

@[simp] theorem sendNow_loopDone (s : TickerState) : (sendNow s).loopDone = s.loopDone := rfl

@[simp] theorem sendNow_now (s : TickerState) : (sendNow s).now = s.now := rfl

@[simp] theorem sendNow_delivered (s : TickerState) :
    (sendNow s).delivered = s.delivered ++ [s.now] := rfl

@[simp] theorem sendNow_received (s : TickerState) :
    (sendNow s).received = s.received := rfl

@[simp] theorem sendNow_cycles (s : TickerState) : (sendNow s).cycles = s.cycles + 1 := rfl

@[simp] theorem dropTick_chanC (s : TickerState) : (dropTick s).chanC = s.chanC := rfl

@[simp] theorem dropTick_stopClosed (s : TickerState) :
    (dropTick s).stopClosed = s.stopClosed := rfl

@[simp] theorem dropTick_loopDone (s : TickerState) :
    (dropTick s).loopDone = s.loopDone := rfl

@[simp] theorem dropTick_now (s : TickerState) : (dropTick s).now = s.now := rfl

@[simp] theorem dropTick_delivered (s : TickerState) :
    (dropTick s).delivered = s.delivered := rfl

@[simp] theorem dropTick_received (s : TickerState) :
    (dropTick s).received = s.received := rfl

@[simp] theorem dropTick_cycles (s : TickerState) : (dropTick s).cycles = s.cycles + 1 := rfl

@[simp] theorem initState_chanC (gen : Int → Nat → Nat) (nowNano : Int) :
    (initState gen nowNano).chanC = [] := rfl

@[simp] theorem initState_stopClosed (gen : Int → Nat → Nat) (nowNano : Int) :
    (initState gen nowNano).stopClosed = false := rfl

@[simp] theorem initState_loopDone (gen : Int → Nat → Nat) (nowNano : Int) :
    (initState gen nowNano).loopDone = false := rfl

@[simp] theorem initState_now (gen : Int → Nat → Nat) (nowNano : Int) :
    (initState gen nowNano).now = nowNano := rfl

@[simp] theorem initState_delivered (gen : Int → Nat → Nat) (nowNano : Int) :
    (initState gen nowNano).delivered = [] := rfl

@[simp] theorem initState_received (gen : Int → Nat → Nat) (nowNano : Int) :
    (initState gen nowNano).received = [] := rfl

@[simp] theorem initState_cycles (gen : Int → Nat → Nat) (nowNano : Int) :
    (initState gen nowNano).cycles = 0 := rfl

theorem NewTicker_ok_inv {gen : Int → Nat → Nat} {nowNano I J : Int}
    {t : Ticker} {s : TickerState} (h : NewTicker gen nowNano I J = .ok (t, s)) :
    0 < I ∧ 0 < J ∧ t = { interval := I, jitter := J } ∧ s = initState gen nowNano := by
  unfold NewTicker at h
  split at h
  · cases h
  next hI =>
    split at h
    · cases h
    next hJ =>
      injection h with h1
      obtain ⟨h2, h3⟩ := Prod.mk.injEq .. ▸ h1
      exact ⟨not_le.mp hI, not_le.mp hJ, h2.symm, h3.symm⟩

theorem Ticker.tickCycle_eq {t : Ticker} (s : TickerState) (pick : Bool)
    (hj : 0 < t.jitter) :
    t.tickCycle s pick =
      if s.stopClosed then
        if s.chanC.isEmpty then
          if pick then .ok (breakLoop (slept t s)) else .ok (sendNow (slept t s))
        else .ok (breakLoop (slept t s))
      else
        if s.chanC.isEmpty then .ok (sendNow (slept t s))
        else .ok (dropTick (slept t s)) := by
  unfold Ticker.tickCycle
  rw [t.sleep_of_pos s.random hj]
  rfl

theorem Ticker.tickCycle_ok_inv {t : Ticker} {s s' : TickerState} {pick : Bool}
    (h : t.tickCycle s pick = .ok s') :
    ∃ d r', t.sleep s.random = .ok (d, r') ∧
      ((s.stopClosed = true ∧ (s.chanC.isEmpty = false ∨ pick = true) ∧
          s' = breakLoop (afterSleep s d r')) ∨
       (s.chanC.isEmpty = true ∧ (s.stopClosed = false ∨ pick = false) ∧
          s' = sendNow (afterSleep s d r')) ∨
       (s.stopClosed = false ∧ s.chanC.isEmpty = false ∧
          s' = dropTick (afterSleep s d r'))) := by
  unfold Ticker.tickCycle at h
  split at h
  · cases h
  next d r' heq =>
    refine ⟨d, r', heq, ?_⟩
    split at h
    next hstop =>
      split at h
      next hempty =>
        split at h
        next hpick =>
          injection h with h1
          exact Or.inl ⟨hstop, Or.inr hpick, h1.symm⟩
        next hpick =>
          injection h with h1
          exact Or.inr (Or.inl ⟨hempty, Or.inr (by simpa using hpick), h1.symm⟩)
      next hempty =>
        injection h with h1
        exact Or.inl ⟨hstop, Or.inl (by simpa using hempty), h1.symm⟩
    next hstop =>
      split at h
      next hempty =>
        injection h with h1
        exact Or.inr (Or.inl ⟨hempty, Or.inl (by simpa using hstop), h1.symm⟩)
      next hempty =>
        injection h with h1
        exact Or.inr (Or.inr ⟨by simpa using hstop, by simpa using hempty, h1.symm⟩)

theorem Ticker.Stop_ok_inv {s s' : TickerState} (h : Ticker.Stop s = .ok s') :
    s.stopClosed = false ∧ s' = { s with stopClosed := true } := by
  unfold Ticker.Stop at h
  split at h
  · cases h
  next hs =>
    injection h with h1
    exact ⟨by simpa using hs, h1.symm⟩

theorem recvC_some_inv {s s' : TickerState} {x : Int} (h : recvC s = some (x, s')) :
    ∃ rest, s.chanC = x :: rest ∧
      s' = { s with chanC := rest, received := s.received ++ [x] } := by
  unfold recvC at h
  split at h
  · cases h
  next y rest heq =>
    injection h with h1
    obtain ⟨h2, h3⟩ := Prod.mk.injEq .. ▸ h1
    subst h2
    exact ⟨rest, heq, h3.symm⟩

theorem Ticker.tickCycle_total {t : Ticker} (s : TickerState) (pick : Bool)
    (hj : 0 < t.jitter) : ∃ s', t.tickCycle s pick = .ok s' := by
  rw [Ticker.tickCycle_eq s pick hj]
  by_cases h1 : s.stopClosed <;> by_cases h2 : s.chanC.isEmpty <;> cases pick <;>
    simp [h1, h2]

/-! Preservation of the invariants along the step semantics. -/

theorem inv_step {t : Ticker} {s s' : TickerState} (h : Step t s s') (hi : Inv s) :
    Inv s' := by
  obtain ⟨hlen, hcat, hch, hub⟩ := hi
  have hmax : ∀ d : Int, s.now ≤ s.now + max 0 d := by
    intro d
    have h0 := le_max_left (0 : Int) d
    omega
  cases h with
  | tick pick _ _ hdone htc =>
    obtain ⟨d, r', -, hc⟩ := Ticker.tickCycle_ok_inv htc
    rcases hc with ⟨-, -, rfl⟩ | ⟨hemp, -, rfl⟩ | ⟨-, -, rfl⟩
    · exact ⟨hlen, hcat, hch, fun y hy => le_trans (hub y hy) (hmax d)⟩
    · have hC : s.chanC = [] := by simpa using hemp
      refine ⟨?_, ?_, ?_, ?_⟩
      · simp [hC]
      · show s.received ++ (s.chanC ++ [s.now + max 0 d]) = s.delivered ++ [s.now + max 0 d]
        rw [← List.append_assoc, hcat]
      · show (s.delivered ++ [s.now + max 0 d]).Pairwise (· ≤ ·)
        refine List.pairwise_append.mpr ⟨hch, List.pairwise_singleton .., ?_⟩
        intro a ha b hb
        rw [List.mem_singleton] at hb
        subst hb
        exact le_trans (hub a ha) (hmax d)
      · intro y hy
        rw [sendNow_delivered, afterSleep_delivered, List.mem_append] at hy
        show y ≤ s.now + max 0 d
        rcases hy with hy | hy
        · exact le_trans (hub y hy) (hmax d)
        · rw [List.mem_singleton] at hy
          subst hy
          exact le_of_eq (by simp)
    · exact ⟨hlen, hcat, hch, fun y hy => le_trans (hub y hy) (hmax d)⟩
  | recv _ _ x hr =>
    obtain ⟨rest, hC, rfl⟩ := recvC_some_inv hr
    refine ⟨?_, ?_, hch, hub⟩
    · show rest.length ≤ 1
      rw [hC, List.length_cons] at hlen
      omega
    · show (s.received ++ [x]) ++ rest = s.delivered
      rw [List.append_assoc, List.singleton_append, ← hC, hcat]
  | stop _ _ hstop =>
    obtain ⟨-, rfl⟩ := Ticker.Stop_ok_inv hstop
    exact ⟨hlen, hcat, hch, hub⟩

theorem invStrict_step {t : Ticker} (hIpos : 0 < t.interval)
    (hIJ : t.interval + t.jitter ≤ 2 ^ 63) {s s' : TickerState}
    (h : Step t s s') (hi : InvStrict s) : InvStrict s' := by
  obtain ⟨hch, hub⟩ := hi
  cases h with
  | tick pick _ _ hdone htc =>
    obtain ⟨d, r', hs, hc⟩ := Ticker.tickCycle_ok_inv htc
    obtain ⟨delay, -, hd0, hdJ, rfl⟩ := Ticker.sleep_ok_inv hs
    have hw : wrap64 (t.interval + delay) = t.interval + delay :=
      wrap64_eq_self (by omega) (by omega)
    have hmax : (1 : Int) ≤ max 0 (wrap64 (t.interval + delay)) := by
      refine le_trans ?_ (le_max_right 0 _)
      omega
    rcases hc with ⟨-, -, rfl⟩ | ⟨hemp, -, rfl⟩ | ⟨-, -, rfl⟩
    · refine ⟨hch, fun y hy => ?_⟩
      have hy2 := hub y hy
      show y ≤ s.now + max 0 (wrap64 (t.interval + delay))
      omega
    · refine ⟨?_, ?_⟩
      · show (s.delivered ++ [s.now + max 0 (wrap64 (t.interval + delay))]).Pairwise (· < ·)
        refine List.pairwise_append.mpr ⟨hch, List.pairwise_singleton .., ?_⟩
        intro a ha b hb
        rw [List.mem_singleton] at hb
        subst hb
        have := hub a ha
        omega
      · intro y hy
        rw [sendNow_delivered, afterSleep_delivered, List.mem_append] at hy
        show y ≤ s.now + max 0 (wrap64 (t.interval + delay))
        rcases hy with hy | hy
        · have := hub y hy
          omega
        · rw [List.mem_singleton] at hy
          subst hy
          exact le_of_eq (by simp)
    · refine ⟨hch, fun y hy => ?_⟩
      have hy2 := hub y hy
      show y ≤ s.now + max 0 (wrap64 (t.interval + delay))
      omega
  | recv _ _ x hr =>
    obtain ⟨rest, hC, rfl⟩ := recvC_some_inv hr
    exact ⟨hch, hub⟩
  | stop _ _ hstop =>
    obtain ⟨-, rfl⟩ := Ticker.Stop_ok_inv hstop
    exact ⟨hch, hub⟩

theorem inv_reachable {t : Ticker} {s0 s : TickerState} (hr : Reachable t s0 s)
    (hi : Inv s0) : Inv s := by
  induction hr with
  | refl => exact hi
  | tail _ hstep ih => exact inv_step hstep ih

theorem invStrict_reachable {t : Ticker} (hIpos : 0 < t.interval)
    (hIJ : t.interval + t.jitter ≤ 2 ^ 63) {s0 s : TickerState}
    (hr : Reachable t s0 s) (hi : InvStrict s0) : InvStrict s := by
  induction hr with
  | refl => exact hi
  | tail _ hstep ih => exact invStrict_step hIpos hIJ hstep ih

theorem Step.stopClosed_mono {t : Ticker} {s s' : TickerState} (h : Step t s s')
    (hs : s.stopClosed = true) : s'.stopClosed = true := by
  cases h with
  | tick pick _ _ hdone htc =>
    obtain ⟨d, r', -, hc⟩ := Ticker.tickCycle_ok_inv htc
    rcases hc with ⟨-, -, rfl⟩ | ⟨-, -, rfl⟩ | ⟨-, -, rfl⟩ <;> simpa using hs
  | recv _ _ x hr =>
    obtain ⟨rest, -, rfl⟩ := recvC_some_inv hr
    exact hs
  | stop _ _ hstop =>
    obtain ⟨hfalse, -⟩ := Ticker.Stop_ok_inv hstop
    rw [hs] at hfalse
    cases hfalse

theorem step_loopDone_frozen {t : Ticker} {s s' : TickerState} (h : Step t s s')
    (hd : s.loopDone = true) : s'.loopDone = true ∧ s'.delivered = s.delivered := by
  cases h with
  | tick pick _ _ hdone htc =>
    rw [hd] at hdone
    cases hdone
  | recv _ _ x hr =>
    obtain ⟨rest, -, rfl⟩ := recvC_some_inv hr
    exact ⟨hd, rfl⟩
  | stop _ _ hstop =>
    obtain ⟨-, rfl⟩ := Ticker.Stop_ok_inv hstop
    exact ⟨hd, rfl⟩

theorem reachable_loopDone_frozen {t : Ticker} {s s' : TickerState}
    (hr : Reachable t s s') (hd : s.loopDone = true) :
    s'.loopDone = true ∧ s'.delivered = s.delivered := by
  induction hr with
  | refl => exact ⟨hd, rfl⟩
  | tail _ hstep ih =>
    obtain ⟨h1, h2⟩ := ih
    obtain ⟨h3, h4⟩ := step_loopDone_frozen hstep h1
    exact ⟨h3, h4.trans h2⟩

theorem runTicks_spec {t : Ticker} (hj : 0 < t.jitter) (s : TickerState)
    (hstop : s.stopClosed = false) (hdone : s.loopDone = false) (n : Nat) :
    (runTicks t s n).cycles = s.cycles + n ∧
    (runTicks t s n).received = s.received ∧
    (runTicks t s n).stopClosed = false ∧
    (runTicks t s n).loopDone = false ∧
    Reachable t s (runTicks t s n) := by
  induction n generalizing s with
  | zero => exact ⟨rfl, rfl, hstop, hdone, Relation.ReflTransGen.refl⟩
  | succ n ih =>
    by_cases hc : s.chanC.isEmpty
    · have htc : t.tickCycle s false = .ok (sendNow (slept t s)) := by
        rw [Ticker.tickCycle_eq s false hj]
        simp [hstop, hc]
      have hrun : runTicks t s (n + 1) = runTicks t (sendNow (slept t s)) n := by
        conv_lhs => rw [runTicks]
        rw [htc]
      obtain ⟨c1, c2, c3, c4, c5⟩ :=
        ih (sendNow (slept t s)) (by simpa [slept] using hstop) (by simpa [slept] using hdone)
      refine ⟨?_, ?_, ?_, ?_, ?_⟩
      · rw [hrun, c1]
        simp [slept]
        omega
      · rw [hrun, c2]
        simp [slept]
      · rw [hrun]
        exact c3
      · rw [hrun]
        exact c4
      · rw [hrun]
        exact Relation.ReflTransGen.head (Step.tick false s _ hdone htc) c5
    · have htc : t.tickCycle s false = .ok (dropTick (slept t s)) := by
        rw [Ticker.tickCycle_eq s false hj]
        simp [hstop, hc]
      have hrun : runTicks t s (n + 1) = runTicks t (dropTick (slept t s)) n := by
        conv_lhs => rw [runTicks]
        rw [htc]
      obtain ⟨c1, c2, c3, c4, c5⟩ :=
        ih (dropTick (slept t s)) (by simpa [slept] using hstop) (by simpa [slept] using hdone)
      refine ⟨?_, ?_, ?_, ?_, ?_⟩
      · rw [hrun, c1]
        simp [slept]
        omega
      · rw [hrun, c2]
        simp [slept]
      · rw [hrun]
        exact c3
      · rw [hrun]
        exact c4
      · rw [hrun]
        exact Relation.ReflTransGen.head (Step.tick false s _ hdone htc) c5

/-! The claims. -/

/-- C1 (counterexample): the claim fails as stated.  With
`interval = 2^63 - 1` and `jitter = 2` — both accepted by the constructor —
and a raw draw of `1`, the drawn delay is `1` and the `int64` addition
`interval + delay` inside `sleep` wraps to `-2^63`, so the sleep duration is
negative rather than at least `interval`. -/
theorem C1_counterexample :
    ∃ t s d r', NewTicker (fun _ _ => 1) 0 (2 ^ 63 - 1) 2 = .ok (t, s) ∧
      t.sleep s.random = .ok (d, r') ∧ d < 0 ∧ ¬(2 ^ 63 - 1 ≤ d) := by
  refine ⟨_, _, _, _, rfl, rfl, by decide, by decide⟩

/-- C1 (amended): for every ticker the constructor returns with interval `I`
and jitter `J` such that the `int64` addition cannot wrap (`I + J ≤ 2^63`),
every cycle's drawn delay lies in `[0, J)` and the total sleep duration `d`
satisfies `I ≤ d < I + J`. -/
theorem C1_theorem (gen : Int → Nat → Nat) (nowNano I J : Int) (t : Ticker)
    (s : TickerState) (h : NewTicker gen nowNano I J = .ok (t, s))
    (hof : I + J ≤ 2 ^ 63) (r : Rand) :
    ∃ delay r', r.int63n t.jitter = .ok (delay, r') ∧ 0 ≤ delay ∧ delay < J ∧
      t.sleep r = .ok (I + delay, r') ∧ I ≤ I + delay ∧ I + delay < I + J := by
  obtain ⟨hI, hJ, rfl, -⟩ := NewTicker_ok_inv h
  have hd0 : (0 : Int) ≤ (r.next r.idx % 2 ^ 63 : Nat) % J :=
    Int.emod_nonneg _ (by omega)
  have hdJ : ((r.next r.idx % 2 ^ 63 : Nat) % J : Int) < J :=
    Int.emod_lt_of_pos _ hJ
  refine ⟨(r.next r.idx % 2 ^ 63 : Nat) % J, { r with idx := r.idx + 1 },
    r.int63n_of_pos hJ, hd0, hdJ, ?_, by omega, by omega⟩
  have hw : wrap64 (I + (r.next r.idx % 2 ^ 63 : Nat) % J) =
      I + (r.next r.idx % 2 ^ 63 : Nat) % J :=
    wrap64_eq_self (by omega) (by omega)
  have hs := Ticker.sleep_of_pos { interval := I, jitter := J } r hJ
  dsimp only at hs
  rw [hw] at hs
  exact hs

/-- C1 (witness): instantiation of the amended claim at interval 100 and
jitter 50. -/
theorem C1_witness :
    ∃ delay r', Rand.int63n sA0.random tA.jitter = .ok (delay, r') ∧
      0 ≤ delay ∧ delay < 50 ∧ tA.sleep sA0.random = .ok (100 + delay, r') ∧
      (100 : Int) ≤ 100 + delay ∧ 100 + delay < 100 + 50 :=
  C1_theorem genW 0 100 50 tA sA0 rfl (by decide) sA0.random

/-- C2: construction with a non-positive interval or a non-positive jitter
fails immediately and synchronously with the corresponding panic, and no
ticker, state or event is ever produced for such inputs. -/
theorem C2_theorem (gen : Int → Nat → Nat) (nowNano I J : Int)
    (h : I ≤ 0 ∨ J ≤ 0) :
    (∃ e, NewTicker gen nowNano I J = .error e) ∧
    ∀ ts, NewTicker gen nowNano I J ≠ .ok ts := by
  have hmain : ∃ e, NewTicker gen nowNano I J = .error e := by
    unfold NewTicker
    rcases h with h | h
    · rw [if_pos h]
      exact ⟨_, rfl⟩
    · by_cases hI : I ≤ 0
      · rw [if_pos hI]
        exact ⟨_, rfl⟩
      · rw [if_neg hI, if_pos h]
        exact ⟨_, rfl⟩
  obtain ⟨e, he⟩ := hmain
  refine ⟨⟨e, he⟩, fun ts hts => ?_⟩
  rw [he] at hts
  cases hts

/-- C2 (witness): instantiation at interval 0 and jitter 50. -/
theorem C2_witness :
    (∃ e, NewTicker genW 0 0 50 = .error e) ∧
    ∀ ts, NewTicker genW 0 0 50 ≠ .ok ts :=
  C2_theorem genW 0 0 50 (Or.inl (by decide))

/-- C3 (counterexample): the claim fails as stated.  There is a reachable
execution in which the stop flag is set at the wake, yet the loop does not
terminate: with the channel slot empty both the stop case and the send case
of the `select` are ready, and when Go's uniform choice takes the send case
the loop delivers an event (timestamp 107) and continues running. -/
theorem C3_counterexample :
    ∃ t s0 s1 s2, NewTicker genW 0 100 50 = .ok (t, s0) ∧
      Ticker.Stop s0 = .ok s1 ∧ s1.stopClosed = true ∧ s1.loopDone = false ∧
      t.tickCycle s1 false = .ok s2 ∧
      s2.loopDone = false ∧ s2.delivered = s1.delivered ++ [107] := by
  refine ⟨_, _, _, _, rfl, rfl, rfl, rfl, rfl, rfl, rfl⟩

/-- C3 (amended): upon waking with the stop flag set, the loop terminates
without attempting delivery whenever the channel slot is occupied; when the
slot is empty both the stop case and the send case are ready, so the loop
either terminates without delivery or delivers exactly one more event and
continues. -/
theorem C3_theorem (t : Ticker) (s : TickerState) (pick : Bool)
    (hj : 0 < t.jitter) (hstop : s.stopClosed = true)
    (hdone : s.loopDone = false) :
    ∃ s', t.tickCycle s pick = .ok s' ∧
      (s.chanC ≠ [] → s'.loopDone = true ∧ s'.delivered = s.delivered) ∧
      (s.chanC = [] →
        (s'.loopDone = true ∧ s'.delivered = s.delivered) ∨
        (s'.loopDone = false ∧ ∃ x, s'.delivered = s.delivered ++ [x])) := by
  by_cases hc : s.chanC.isEmpty
  · have hcl : s.chanC = [] := by simpa using hc
    cases pick with
    | false =>
      have heq : t.tickCycle s false = .ok (sendNow (slept t s)) := by
        rw [Ticker.tickCycle_eq s false hj]
        simp [hstop, hc]
      refine ⟨sendNow (slept t s), heq, fun hne => absurd hcl hne, fun _ => ?_⟩
      right
      refine ⟨by simp [slept, hdone], ⟨(slept t s).now, by simp [slept]⟩⟩
    | true =>
      have heq : t.tickCycle s true = .ok (breakLoop (slept t s)) := by
        rw [Ticker.tickCycle_eq s true hj]
        simp [hstop, hc]
      refine ⟨breakLoop (slept t s), heq, fun hne => absurd hcl hne, fun _ => ?_⟩
      left
      exact ⟨by simp, by simp [slept]⟩
  · have hne : s.chanC ≠ [] := by simpa using hc
    have heq : t.tickCycle s pick = .ok (breakLoop (slept t s)) := by
      rw [Ticker.tickCycle_eq s pick hj]
      simp [hstop, hc]
    refine ⟨breakLoop (slept t s), heq, fun _ => ⟨by simp, by simp [slept]⟩,
      fun hceq => absurd hceq hne⟩

/-- C3 (witness): instantiation at a stopped state with an occupied slot. -/
theorem C3_witness :
    ∃ s', tA.tickCycle sFull true = .ok s' ∧
      (sFull.chanC ≠ [] → s'.loopDone = true ∧ s'.delivered = sFull.delivered) ∧
      (sFull.chanC = [] →
        (s'.loopDone = true ∧ s'.delivered = sFull.delivered) ∨
        (s'.loopDone = false ∧ ∃ x, s'.delivered = sFull.delivered ++ [x])) :=
  C3_theorem tA sFull true (by decide) rfl rfl

/-- C4 (counterexample): the claim fails as stated.  In a reachable execution
where `Stop` has returned, the loop can deliver two further events (the
`select` choosing the ready send case twice, with the consumer draining in
between) and still be running after two further cycles — more than the
claimed bound of one further event and one further cycle. -/
theorem C4_counterexample :
    ∃ t s0 s1 s2 x s3 s4, NewTicker genW 0 100 50 = .ok (t, s0) ∧
      Ticker.Stop s0 = .ok s1 ∧ s1.delivered = [] ∧
      t.tickCycle s1 false = .ok s2 ∧
      recvC s2 = some (x, s3) ∧
      t.tickCycle s3 false = .ok s4 ∧
      s4.delivered.length = 2 ∧ s4.loopDone = false := by
  refine ⟨_, _, _, _, _, _, _, rfl, rfl, rfl, rfl, rfl, rfl, rfl, rfl⟩

/-- C4 (amended): after the stop flag is set, each further loop iteration
delivers at most one event; an iteration that wakes with the channel slot
occupied terminates the loop without delivering; and once the loop has
terminated, no later reachable state has any additional delivered event.
(The select may keep choosing the ready send case while the slot is empty, so
neither the bound of one further event nor termination within one further
cycle holds in every execution.) -/
theorem C4_theorem (t : Ticker) (s s' : TickerState) (pick : Bool)
    (hstop : s.stopClosed = true) (h : t.tickCycle s pick = .ok s') :
    s'.delivered.length ≤ s.delivered.length + 1 ∧
    (s.chanC ≠ [] → s'.loopDone = true ∧ s'.delivered = s.delivered) ∧
    (∀ s'', s'.loopDone = true → Reachable t s' s'' →
      s''.delivered = s'.delivered) := by
  obtain ⟨d, r', -, hc⟩ := Ticker.tickCycle_ok_inv h
  have habs : ∀ s₁ : TickerState, s₁.loopDone = true →
      ∀ s₂, Reachable t s₁ s₂ → s₂.delivered = s₁.delivered :=
    fun s₁ h₁ s₂ h₂ => (reachable_loopDone_frozen h₂ h₁).2
  rcases hc with ⟨-, -, rfl⟩ | ⟨hemp, -, rfl⟩ | ⟨hfalse, -, -⟩
  · exact ⟨Nat.le_succ _, fun _ => ⟨rfl, rfl⟩, fun s'' h1 h2 => habs _ h1 _ h2⟩
  · have hcl : s.chanC = [] := by simpa using hemp
    refine ⟨le_of_eq (by simp), fun hne => absurd hcl hne,
      fun s'' h1 h2 => habs _ h1 _ h2⟩
  · rw [hstop] at hfalse
    cases hfalse

/-- C4 (witness): instantiation at a stopped state with an occupied slot. -/
theorem C4_witness :
    (okOr (tA.tickCycle sFull true) sFull).delivered.length ≤
      sFull.delivered.length + 1 ∧
    (sFull.chanC ≠ [] → (okOr (tA.tickCycle sFull true) sFull).loopDone = true ∧
      (okOr (tA.tickCycle sFull true) sFull).delivered = sFull.delivered) ∧
    (∀ s'', (okOr (tA.tickCycle sFull true) sFull).loopDone = true →
      Reachable tA (okOr (tA.tickCycle sFull true) sFull) s'' →
      s''.delivered = (okOr (tA.tickCycle sFull true) sFull).delivered) :=
  C4_theorem tA sFull (okOr (tA.tickCycle sFull true) sFull) true rfl rfl

/-- C5: in every reachable state of a constructed ticker the event channel
holds at most one undelivered event; every loop iteration completes (the
producer never blocks); a delivery attempt with the slot occupied and the
stop flag clear silently drops the event, leaving the channel and the
delivered history unchanged and the loop running; and the producer completes
unboundedly many cycles even when the consumer never receives. -/
theorem C5_theorem (gen : Int → Nat → Nat) (nowNano I J : Int) (t : Ticker)
    (s0 : TickerState) (h : NewTicker gen nowNano I J = .ok (t, s0))
    (s : TickerState) (hr : Reachable t s0 s) :
    s.chanC.length ≤ 1 ∧
    (∀ pick, ∃ s', t.tickCycle s pick = .ok s') ∧
    (s.stopClosed = false → s.chanC ≠ [] → ∀ pick, ∃ s',
      t.tickCycle s pick = .ok s' ∧ s'.chanC = s.chanC ∧
      s'.delivered = s.delivered ∧ s'.loopDone = s.loopDone ∧
      s'.cycles = s.cycles + 1) ∧
    (∀ n, (runTicks t s0 n).cycles = n ∧ (runTicks t s0 n).received = [] ∧
      Reachable t s0 (runTicks t s0 n)) := by
  obtain ⟨hI, hJ, ht, hs0⟩ := NewTicker_ok_inv h
  have hj : 0 < t.jitter := by
    rw [ht]
    exact hJ
  have hinv : Inv s :=
    inv_reachable hr (by rw [hs0]; exact ⟨by simp, by simp, by simp, by simp⟩)
  refine ⟨hinv.1, fun pick => Ticker.tickCycle_total s pick hj, ?_, ?_⟩
  · intro hstop hne pick
    have hc : ¬s.chanC.isEmpty = true := by simpa using hne
    refine ⟨dropTick (slept t s), ?_, by simp [slept], by simp [slept],
      by simp [slept], by simp [slept]⟩
    rw [Ticker.tickCycle_eq s pick hj]
    simp [hstop, hc]
  · intro n
    obtain ⟨c1, c2, -, -, c5⟩ :=
      runTicks_spec hj s0 (by simp [hs0]) (by simp [hs0]) n
    refine ⟨?_, ?_, c5⟩
    · rw [c1]
      simp [hs0]
    · rw [c2]
      simp [hs0]

/-- C5 (witness): instantiation at a freshly constructed ticker. -/
theorem C5_witness :
    sA0.chanC.length ≤ 1 ∧
    (∀ pick, ∃ s', tA.tickCycle sA0 pick = .ok s') ∧
    (sA0.stopClosed = false → sA0.chanC ≠ [] → ∀ pick, ∃ s',
      tA.tickCycle sA0 pick = .ok s' ∧ s'.chanC = sA0.chanC ∧
      s'.delivered = sA0.delivered ∧ s'.loopDone = sA0.loopDone ∧
      s'.cycles = sA0.cycles + 1) ∧
    (∀ n, (runTicks tA sA0 n).cycles = n ∧ (runTicks tA sA0 n).received = [] ∧
      Reachable tA sA0 (runTicks tA sA0 n)) :=
  C5_theorem genW 0 100 50 tA sA0 rfl sA0 Relation.ReflTransGen.refl

/-- C6: the first `Stop` call sets the one-shot stop flag and returns
immediately; a second `Stop` on the same instance is the fatal
close-of-closed-channel panic; and no step of the system ever clears a set
flag, so the flag transitions from unset to set at most once. -/
theorem C6_theorem (s : TickerState) :
    (s.stopClosed = false → Ticker.Stop s = .ok { s with stopClosed := true }) ∧
    (s.stopClosed = true → Ticker.Stop s = .error .closeOfClosedChannel) ∧
    (∀ s', Ticker.Stop s = .ok s' →
      Ticker.Stop s' = .error .closeOfClosedChannel) ∧
    (∀ t s', Step t s s' → s.stopClosed = true → s'.stopClosed = true) := by
  refine ⟨?_, ?_, ?_, ?_⟩
  · intro hf
    unfold Ticker.Stop
    rw [hf]
    rfl
  · intro ht
    unfold Ticker.Stop
    rw [ht]
    rfl
  · intro s' h
    obtain ⟨-, rfl⟩ := Ticker.Stop_ok_inv h
    rfl
  · intro t s' hstep hs
    exact Step.stopClosed_mono hstep hs

/-- C6 (witness): the first `Stop` on a fresh state succeeds, the second
panics. -/
theorem C6_witness :
    Ticker.Stop sA0 = .ok { sA0 with stopClosed := true } ∧
    Ticker.Stop { sA0 with stopClosed := true } =
      .error .closeOfClosedChannel :=
  ⟨(C6_theorem sA0).1 rfl, (C6_theorem sA0).2.2.1 _ ((C6_theorem sA0).1 rfl)⟩

/-- C7: in every reachable state of a constructed ticker, the events the
consumer has received followed by the events still buffered are exactly the
delivered events in order (events are received in production order, never
reordered, with gaps only where events were dropped); delivered timestamps
are pairwise non-decreasing, and pairwise strictly increasing whenever the
sleep addition cannot wrap (`I + J ≤ 2^63`). -/
theorem C7_theorem (gen : Int → Nat → Nat) (nowNano I J : Int) (t : Ticker)
    (s0 : TickerState) (h : NewTicker gen nowNano I J = .ok (t, s0))
    (s : TickerState) (hr : Reachable t s0 s) :
    s.received ++ s.chanC = s.delivered ∧
    s.delivered.Pairwise (· ≤ ·) ∧
    (I + J ≤ 2 ^ 63 → s.delivered.Pairwise (· < ·)) := by
  obtain ⟨hI, hJ, ht, hs0⟩ := NewTicker_ok_inv h
  have hinv : Inv s :=
    inv_reachable hr (by rw [hs0]; exact ⟨by simp, by simp, by simp, by simp⟩)
  refine ⟨hinv.2.1, hinv.2.2.1, fun hof => ?_⟩
  have hIpos : 0 < t.interval := by
    rw [ht]
    exact hI
  have hIJ : t.interval + t.jitter ≤ 2 ^ 63 := by
    rw [ht]
    exact hof
  exact (invStrict_reachable hIpos hIJ hr
    (by rw [hs0]; exact ⟨by simp, by simp⟩)).1

/-- C7 (witness): instantiation at a freshly constructed ticker. -/
theorem C7_witness :
    sA0.received ++ sA0.chanC = sA0.delivered ∧
    sA0.delivered.Pairwise (· ≤ ·) ∧
    ((100 : Int) + 50 ≤ 2 ^ 63 → sA0.delivered.Pairwise (· < ·)) :=
  C7_theorem genW 0 100 50 tA sA0 rfl sA0 Relation.ReflTransGen.refl

/-- C8 (counterexample): the claim fails as stated.  The generator behind
`math/rand` is deterministic given its seed and the seed is exactly the
construction-time clock reading, so two tickers created at the same
`UnixNano` reading with the same parameters draw identical jitter sequences
and fire in lockstep; their sequences do not differ at any index. -/
theorem C8_counterexample :
    ∃ t1 s1 t2 s2, NewTicker genW 42 100 50 = .ok (t1, s1) ∧
      NewTicker genW 42 100 50 = .ok (t2, s2) ∧
      nthDelay t1 s1.random 0 = some 49 ∧
      ∀ n, nthDelay t1 s1.random n = nthDelay t2 s2.random n := by
  refine ⟨_, _, _, _, rfl, rfl, rfl, fun n => rfl⟩

/-- C8 (amended): the per-instance entropy source is deterministic in its
seed, and the seed is the construction-time clock reading, so two tickers
constructed with the same parameters at the same clock reading produce
identical jitter sequences (lockstep); differing jitter sequences therefore
require differing construction-time clock readings. -/
theorem C8_theorem (gen : Int → Nat → Nat) (nowNano I J : Int)
    (t1 : Ticker) (s1 : TickerState) (t2 : Ticker) (s2 : TickerState)
    (h1 : NewTicker gen nowNano I J = .ok (t1, s1))
    (h2 : NewTicker gen nowNano I J = .ok (t2, s2)) :
    ∀ n, nthDelay t1 s1.random n = nthDelay t2 s2.random n := by
  rw [h1] at h2
  injection h2 with h3
  obtain ⟨h4, h5⟩ := Prod.mk.injEq .. ▸ h3
  subst h4
  subst h5
  exact fun n => rfl

/-- C8 (witness): two tickers built from the same clock reading agree on the
fourth delay. -/
theorem C8_witness :
    nthDelay tA (initState genW 42).random 3 =
      nthDelay tA (initState genW 42).random 3 :=
  C8_theorem genW 42 100 50 tA (initState genW 42) tA (initState genW 42)
    rfl rfl 3

/-- C9: every ticker the constructor returns stores a strictly positive
jitter, so the `Int63n` draw inside `sleep` is always called with a positive
argument: it never panics, and `sleep` succeeds from every generator
state. -/
theorem C9_theorem (gen : Int → Nat → Nat) (nowNano I J : Int) (t : Ticker)
    (s : TickerState) (h : NewTicker gen nowNano I J = .ok (t, s)) :
    0 < t.jitter ∧ ∀ r : Rand, (∃ d r', t.sleep r = .ok (d, r')) ∧
      ∀ e, r.int63n t.jitter ≠ .error e := by
  obtain ⟨hI, hJ, ht, -⟩ := NewTicker_ok_inv h
  have hj : 0 < t.jitter := by
    rw [ht]
    exact hJ
  refine ⟨hj, fun r => ⟨⟨_, _, Ticker.sleep_of_pos t r hj⟩, fun e he => ?_⟩⟩
  rw [r.int63n_of_pos hj] at he
  cases he

/-- C9 (witness): instantiation at a freshly constructed ticker. -/
theorem C9_witness :
    0 < tA.jitter ∧ ∀ r : Rand, (∃ d r', tA.sleep r = .ok (d, r')) ∧
      ∀ e, r.int63n tA.jitter ≠ .error e :=
  C9_theorem genW 0 100 50 tA sA0 rfl

/-- C10: the constructor validates the interval before the jitter: whenever
both parameters are non-positive, the reported failure is the
non-positive-interval panic carrying the interval value, not the jitter
one. -/
theorem C10_theorem (gen : Int → Nat → Nat) (nowNano I J : Int)
    (hI : I ≤ 0) (hJ : J ≤ 0) :
    NewTicker gen nowNano I J = .error (.nonPositiveInterval I) := by
  unfold NewTicker
  rw [if_pos hI]

/-- C10 (witness): instantiation at interval -3 and jitter -4. -/
theorem C10_witness :
    NewTicker genW 0 (-3) (-4) = .error (.nonPositiveInterval (-3)) :=
  C10_theorem genW 0 (-3) (-4) (by decide) (by decide)

end Jitter
